import Mathlib

/-!
Shallow embedding of the object model and tree-building/parsing engine of the
mygit repository (src/cmd/mygit/tree.go, src/cmd/mygit/commands.go and the
shared byte helpers).  Go byte slices and Go strings are both modelled as
`List Nat` (a Go string is an immutable byte sequence).  Fallible Go functions
returning `(value, error)` pairs are modelled with `Except GoFailure`; a Go
runtime panic (for example a slice-bounds violation) is modelled by the
distinguished failure `GoFailure.runtimePanic`, since it aborts the operation
without producing an ordinary error value.
-/

namespace MyGit

/-- Bytes of an ASCII Go string literal. -/
def strBytes (s : String) : List Nat := s.data.map Char.toNat

/-- Outcomes of a failing Go operation.  The first constructors mirror the
error values the source builds with fmt.Errorf; `runtimePanic` models a Go
runtime panic such as a slice-bounds violation, which is not an error value
at all but aborts the process. -/
inductive GoFailure where
  /-- "Invalid tree object (hdr len: %d, body len: %d)" in parseTreeObject. -/
  | invalidTreeObjectLens (hdrLen bodyLen : Nat)
  /-- "Invalid tree object" (bad header kind) in parseTreeObject. -/
  | invalidTreeObject
  /-- "mode or name missing" in parseNextTreeEntry. -/
  | modeOrNameMissing
  /-- "Invalid object" in catFile. -/
  | invalidObject
  /-- "Hash too short" in catFile. -/
  | hashTooShort
  /-- usage / flag errors of the CLI-facing functions. -/
  | usageError (msg : String)
  /-- a Go runtime panic (slice bounds out of range). -/
  | runtimePanic
  deriving Repr, DecidableEq

/-- Go ObjKind (tree.go): ObjKindBlob = iota, ObjKindTree, ObjKindCommit. -/
inductive ObjKind where
  | blob
  | tree
  | commit
  deriving Repr, DecidableEq

/-- Go struct Object (tree.go): Kind, ShaHash, FileName, Mode.  ShaHash is a
byte slice; FileName and Mode (ObjectMode) are Go strings, both byte
sequences here. -/
structure GoObject where
  Kind : ObjKind
  ShaHash : List Nat
  FileName : List Nat
  Mode : List Nat
  deriving Repr, DecidableEq

/-- splitOn (part of the repository's shared helpers): bytes.IndexByte on
sep, returning (b, nil) when sep is absent and (b[:i], b[i+1:]) otherwise. -/
def splitOn : List Nat → Nat → List Nat × List Nat
  | [], _ => ([], [])
  | b :: bs, sep =>
    if b = sep then ([], bs)
    else
      let p := splitOn bs sep
      (b :: p.1, p.2)

/-- bytes.IndexByte: index of the first occurrence of a byte, `none` for the
Go sentinel -1. -/
def indexByte : List Nat → Nat → Option Nat
  | [], _ => none
  | b :: bs, c => if b = c then some 0 else (indexByte bs c).map (· + 1)

/-- strings.HasPrefix s pre. -/
def bytesStartsWith : List Nat → List Nat → Bool
  | _, [] => true
  | [], _ :: _ => false
  | a :: as, b :: bs => a = b && bytesStartsWith as bs

/-- Decimal ASCII digits of a natural number, most significant first:
the bytes produced by fmt's %d verb for a non-negative length. -/
def decimalBytesAux (n : Nat) (acc : List Nat) : List Nat :=
  if h : n = 0 then acc
  else decimalBytesAux (n / 10) ((48 + n % 10) :: acc)
  termination_by n
  decreasing_by exact Nat.div_lt_self (Nat.pos_of_ne_zero h) (by decide)

/-- fmt %d of a Go int holding a non-negative length. -/
def decimalBytes (n : Nat) : List Nat :=
  if n = 0 then [48] else decimalBytesAux n []

/-- The object kind parseNextTreeEntry assigns, written as a function of the
entry's file name (the code branches on strings.HasPrefix of the name). -/
def kindFromName (name : List Nat) : ObjKind :=
  if bytesStartsWith name (strBytes "tree") then ObjKind.tree
  else if bytesStartsWith name (strBytes "commit") then ObjKind.commit
  else ObjKind.blob

/-- parseNextTreeEntry (tree.go lines 61-92).  The Go code slices rest[:20]
and rest[20:] with no bounds check; when fewer than 20 bytes remain this is a
slice-bounds violation (with a larger backing-array capacity Go would instead
read past the slice's logical end), modelled as `runtimePanic`. -/
def parseNextTreeEntry (treeBody : List Nat) : Except GoFailure (GoObject × List Nat) :=
  let hdrRest := splitOn treeBody 0
  let modeName := splitOn hdrRest.1 32
  if modeName.1.length = 0 ∨ modeName.2.length = 0 then
    .error .modeOrNameMissing
  else if hdrRest.2.length < 20 then
    .error .runtimePanic
  else
    let hashBytes := hdrRest.2.take 20
    let nextBytes := hdrRest.2.drop 20
    let objKind :=
      if bytesStartsWith modeName.2 (strBytes "tree") then ObjKind.tree
      else if bytesStartsWith modeName.2 (strBytes "commit") then ObjKind.commit
      else ObjKind.blob
    .ok ({ Kind := objKind, ShaHash := hashBytes, Mode := modeName.1,
           FileName := modeName.2 }, nextBytes)

theorem splitOn_snd_length_le : ∀ (b : List Nat) (c : Nat),
    (splitOn b c).2.length ≤ b.length
  | [], _ => Nat.le_refl _
  | b :: bs, c => by
    by_cases h : b = c
    · simp [splitOn, h]
    · simpa [splitOn, h] using Nat.le_succ_of_le (splitOn_snd_length_le bs c)

theorem splitOn_snd_lt : ∀ (b : List Nat) (c : Nat),
    (splitOn b c).2 = [] ∨ (splitOn b c).2.length < b.length
  | [], _ => Or.inl rfl
  | b :: bs, c => by
    by_cases h : b = c
    · exact Or.inr (by simp [splitOn, h])
    · cases splitOn_snd_lt bs c with
      | inl h0 => exact Or.inl (by simp [splitOn, h, h0])
      | inr hlt =>
        refine Or.inr ?_
        have hs : (splitOn (b :: bs) c).2 = (splitOn bs c).2 := by
          simp [splitOn, h]
        rw [hs]
        exact Nat.lt_succ_of_lt hlt

/-- An entry successfully parsed strictly shrinks the remaining body. -/
theorem parseNextTreeEntry_length {treeBody : List Nat} {o : GoObject}
    {rest : List Nat} (h : parseNextTreeEntry treeBody = .ok (o, rest)) :
    rest.length < treeBody.length := by
  unfold parseNextTreeEntry at h
  dsimp only at h
  split at h
  · exact absurd h (by simp)
  · split at h
    · exact absurd h (by simp)
    · rename_i h1 h2
      rw [Except.ok.injEq, Prod.mk.injEq] at h
      have hrest : (splitOn treeBody 0).2.drop 20 = rest := h.2
      have h20 : ¬ (splitOn treeBody 0).2.length < 20 := h2
      rcases splitOn_snd_lt treeBody 0 with h0 | hlt
      · rw [h0] at h20; simp at h20
      · rw [← hrest]
        have : ((splitOn treeBody 0).2.drop 20).length ≤
            (splitOn treeBody 0).2.length := by
          rw [List.length_drop]; omega
        omega

/-- The entry loop of parseTreeObject (tree.go lines 113-121): parse entries
until the body is exhausted, propagating entry failures. -/
def parseTreeEntriesLoop (body : List Nat) : Except GoFailure (List GoObject) :=
  if hb : body.length = 0 then .ok []
  else
    match he : parseNextTreeEntry body with
    | .error e => .error e
    | .ok (o, rest) =>
      match parseTreeEntriesLoop rest with
      | .error e => .error e
      | .ok entries => .ok (o :: entries)
  termination_by body.length
  decreasing_by exact parseNextTreeEntry_length he

/-- parseTreeObject (tree.go lines 94-124). -/
def parseTreeObject (treeBytes : List Nat) : Except GoFailure (List GoObject) :=
  let hdrBody := splitOn treeBytes 0
  if hdrBody.1.length = 0 ∨ hdrBody.2.length = 0 then
    .error (.invalidTreeObjectLens hdrBody.1.length hdrBody.2.length)
  else if ¬ bytesStartsWith hdrBody.1 (strBytes "tree ") then
    .error .invalidTreeObject
  else
    parseTreeEntriesLoop hdrBody.2

/-- bytes.Join: concatenate the pieces with the separator between them. -/
def bytesJoin : List (List Nat) → List Nat → List Nat
  | [], _ => []
  | [x], _ => x
  | x :: y :: xs, sep => x ++ sep ++ bytesJoin (y :: xs) sep

/-- The encoded blob object built by createObjectFromFile (commands.go lines
92-93): bytes.Join of the "blob %d" header and the contents with a single
0x00 separator. -/
def blobObjectBytes (contents : List Nat) : List Nat :=
  bytesJoin [strBytes "blob " ++ decimalBytes contents.length, contents] [0]

/-- The per-entry bytes written by the loop body of serializeTreeObject:
mode, a space, the file name, a 0x00 byte, the raw hash. -/
def serializeTreeEntryBytes (e : GoObject) : List Nat :=
  e.Mode ++ [32] ++ e.FileName ++ [0] ++ e.ShaHash

/-- serializeTreeObject (tree.go lines 132-147): the buffer loop followed by
prepending the "tree %d\x00" header. -/
def serializeTreeObject (entries : List GoObject) : List Nat :=
  let body := entries.foldl (fun buf e => buf ++ serializeTreeEntryBytes e) []
  (strBytes "tree " ++ decimalBytes body.length ++ [0]) ++ body

/-- The payload extraction of catFile (commands.go lines 153-159): index of
the first 0x00, "Invalid object" when absent, otherwise everything after it. -/
def parseBlobPayload (b : List Nat) : Except GoFailure (List Nat) :=
  match indexByte b 0 with
  | none => .error .invalidObject
  | some i => .ok (b.drop (i + 1))

/-- ObjectsDir (tree.go line 13): ".git" + os.PathSeparator + "objects",
with the path separator byte 0x2F of the target platform. -/
def ObjectsDir : List Nat := strBytes ".git" ++ [47] ++ strBytes "objects"

/-- filepath.Join restricted to the paths formed in this program: the
non-empty components joined by the separator.  (filepath.Join also runs
Clean on the result; Clean is the identity here because every component the
program forms is non-empty and free of separator and dot bytes, which the
theorems below assume of the hash input.) -/
def filepathJoin (parts : List (List Nat)) : List Nat :=
  ((parts.filter (fun p => !p.isEmpty)).intersperse [47]).flatten

/-- filePathFromObjectHash (tree.go lines 127-129).  The Go code slices
hash[:2] and hash[2:] with no length check: for a hash shorter than 2 bytes
this is a string-slice bounds panic, modelled as `runtimePanic`. -/
def filePathFromObjectHash (hash : List Nat) : Except GoFailure (List Nat) :=
  if hash.length < 2 then .error .runtimePanic
  else .ok (filepathJoin [ObjectsDir, hash.take 2, hash.drop 2])

/-- The argument-validation and path-derivation prefix of catFile
(commands.go lines 125-139); the subsequent file open, decompression and
payload printing are external I/O (the payload split is modelled separately
by parseBlobPayload).  Returns the derived object path. -/
def catFile (args : List (List Nat)) : Except GoFailure (List Nat) :=
  if args.length ≠ 2 then .error (.usageError "usage: mygit cat-file -p <hash>")
  else if args.headI ≠ strBytes "-p" then .error (.usageError "Unknown option -o")
  else
    let hash := args.tail.headI
    if hash.length < 2 then .error .hashTooShort
    else filePathFromObjectHash hash

/-- The argument-validation and path-derivation prefix of lsTree
(commands.go lines 40-57); the subsequent file open, decompression, parse
and printing are external I/O.  Returns the derived object path; note the
hash is handed to filePathFromObjectHash with no length check. -/
def lsTree (args : List (List Nat)) : Except GoFailure (List Nat) :=
  if args.length < 1 then .error (.usageError "usage: mygit ls-tree [--name-only] <hash>")
  else
    let rest := if args.headI = strBytes "--name-only" then args.tail else args
    if rest.length ≠ 1 then .error (.usageError "usage: mygit ls-tree [--name-only] <hash>")
    else filePathFromObjectHash rest.headI

theorem splitOn_not_mem {b : List Nat} {c : Nat} (h : c ∉ b) :
    splitOn b c = (b, []) := by
  induction b with
  | nil => rfl
  | cons x xs ih =>
    have hx : x ≠ c := fun he => h (he ▸ List.mem_cons_self x xs)
    have hxs : c ∉ xs := fun hm => h (List.mem_cons_of_mem x hm)
    simp [splitOn, hx, ih hxs]

theorem splitOn_append {p : List Nat} (s : List Nat) {c : Nat} (h : c ∉ p) :
    splitOn (p ++ c :: s) c = (p, s) := by
  induction p with
  | nil => simp [splitOn]
  | cons x xs ih =>
    have hx : x ≠ c := fun he => h (he ▸ List.mem_cons_self x xs)
    have hxs : c ∉ xs := fun hm => h (List.mem_cons_of_mem x hm)
    simp [splitOn, hx, ih hxs]

theorem indexByte_not_mem {b : List Nat} {c : Nat} (h : c ∉ b) :
    indexByte b c = none := by
  induction b with
  | nil => rfl
  | cons x xs ih =>
    have hx : x ≠ c := fun he => h (he ▸ List.mem_cons_self x xs)
    have hxs : c ∉ xs := fun hm => h (List.mem_cons_of_mem x hm)
    simp [indexByte, hx, ih hxs]

theorem indexByte_append {p : List Nat} (s : List Nat) {c : Nat} (h : c ∉ p) :
    indexByte (p ++ c :: s) c = some p.length := by
  induction p with
  | nil => simp [indexByte]
  | cons x xs ih =>
    have hx : x ≠ c := fun he => h (he ▸ List.mem_cons_self x xs)
    have hxs : c ∉ xs := fun hm => h (List.mem_cons_of_mem x hm)
    simp [indexByte, hx, ih hxs]

theorem parseBlobPayload_append {p : List Nat} (s : List Nat) (h : (0 : Nat) ∉ p) :
    parseBlobPayload (p ++ 0 :: s) = .ok s := by
  rw [parseBlobPayload, indexByte_append s h]
  have : (p ++ 0 :: s).drop (p.length + 1) = s := by
    have h1 : p ++ 0 :: s = (p ++ [0]) ++ s := by simp
    have h2 : (p ++ [0]).length = p.length + 1 := by simp
    rw [h1, ← h2, List.drop_left]
  dsimp only
  rw [this]

theorem bytesStartsWith_nil : ∀ b : List Nat, bytesStartsWith b [] = true
  | [] => rfl
  | _ :: _ => rfl

theorem bytesStartsWith_append : ∀ (p r : List Nat),
    bytesStartsWith (p ++ r) p = true
  | [], r => bytesStartsWith_nil r
  | a :: as, r => by simp [bytesStartsWith, bytesStartsWith_append as r]

theorem decimalBytesAux_mem (P : Nat → Prop) (hd : ∀ m : Nat, P (48 + m % 10)) :
    ∀ (n : Nat) (acc : List Nat), (∀ d ∈ acc, P d) →
      ∀ d ∈ decimalBytesAux n acc, P d := by
  intro n
  induction n using Nat.strong_induction_on with
  | _ n ih =>
    intro acc hacc d hdm
    rw [decimalBytesAux] at hdm
    split at hdm
    · exact hacc d hdm
    · rename_i hne
      refine ih (n / 10) (Nat.div_lt_self (Nat.pos_of_ne_zero hne) (by decide)) _
        ?_ d hdm
      intro x hx
      rcases List.mem_cons.mp hx with hcase | hcase
      · exact hcase ▸ hd n
      · exact hacc x hcase

theorem decimalBytes_digits {n : Nat} : ∀ d ∈ decimalBytes n, 48 ≤ d ∧ d ≤ 57 := by
  intro d hdm
  rw [decimalBytes] at hdm
  split at hdm
  · rcases List.mem_singleton.mp hdm with rfl; omega
  · refine decimalBytesAux_mem (fun d => 48 ≤ d ∧ d ≤ 57) ?_ n [] (by simp) d hdm
    intro m
    have := Nat.mod_lt m (show 0 < 10 by decide)
    omega

theorem zero_not_mem_decimalBytes {n : Nat} : (0 : Nat) ∉ decimalBytes n := by
  intro hmem
  have := decimalBytes_digits 0 hmem
  omega

/-- The body of an encoded tree: the concatenation of the per-entry bytes. -/
def treeBodyBytes (entries : List GoObject) : List Nat :=
  (entries.map serializeTreeEntryBytes).flatten

theorem foldl_append_eq_flatten {α : Type} (f : α → List Nat) :
    ∀ (l : List α) (init : List Nat),
      l.foldl (fun buf e => buf ++ f e) init = init ++ (l.map f).flatten
  | [], init => by simp
  | a :: as, init => by
    simp only [List.foldl_cons, List.map_cons, List.flatten_cons]
    rw [foldl_append_eq_flatten f as (init ++ f a)]
    simp

/-- serializeTreeObject written as header-plus-body concatenation. -/
theorem serializeTreeObject_eq (entries : List GoObject) :
    serializeTreeObject entries =
      strBytes "tree " ++ decimalBytes (treeBodyBytes entries).length ++ [0] ++
        treeBodyBytes entries := by
  rw [serializeTreeObject]
  rw [foldl_append_eq_flatten serializeTreeEntryBytes entries []]
  simp [treeBodyBytes]

/-- Second definition for the refinement claims, following the spec's words
(sections 4.2 and 6): a blob is "blob ", the decimal byte length of the
content, a 0x00 byte, then the content. -/
def specBlobEncoding (content : List Nat) : List Nat :=
  strBytes "blob " ++ decimalBytes content.length ++ [0] ++ content

/-- Second definition for the refinement claims, following the spec's words
(sections 4.2 and 6): each entry is mode, 0x20, name, 0x00, the 20 raw hash
bytes; the full object is "tree ", the decimal byte length of the body, 0x00,
then the body. -/
def specTreeEncoding (entries : List GoObject) : List Nat :=
  let body := (entries.map
    (fun e => e.Mode ++ [32] ++ e.FileName ++ [0] ++ e.ShaHash)).flatten
  strBytes "tree " ++ decimalBytes body.length ++ [0] ++ body

/-- Byte-wise (ordinal) string comparison, as strings.Compare(a, b) <= 0 and
as the order of sort.Strings: lexicographic on the byte sequences. -/
def bytesLe : List Nat → List Nat → Bool
  | [], _ => true
  | _ :: _, [] => false
  | a :: as, b :: bs =>
    if a < b then true else if b < a then false else bytesLe as bs

theorem bytesLe_total : ∀ a b : List Nat, bytesLe a b = true ∨ bytesLe b a = true
  | [], _ => Or.inl rfl
  | _ :: _, [] => Or.inr rfl
  | a :: as, b :: bs => by
    rcases Nat.lt_trichotomy a b with h | h | h
    · left; simp [bytesLe, h]
    · subst h
      rcases bytesLe_total as bs with ht | ht
      · left; simpa [bytesLe] using ht
      · right; simpa [bytesLe] using ht
    · right; simp [bytesLe, h]

theorem bytesLe_trans : ∀ a b c : List Nat,
    bytesLe a b = true → bytesLe b c = true → bytesLe a c = true
  | [], _, c => fun _ _ => by cases c <;> rfl
  | _ :: _, [], _ => fun h1 _ => by simp [bytesLe] at h1
  | _ :: _, _ :: _, [] => fun _ h2 => by simp [bytesLe] at h2
  | a :: as, b :: bs, c :: cs => by
    intro h1 h2
    rcases Nat.lt_trichotomy a b with hab | hab | hab
    · rcases Nat.lt_trichotomy b c with hbc | hbc | hbc
      · simp [bytesLe, Nat.lt_trans hab hbc]
      · subst hbc; simp [bytesLe, hab]
      · simp [bytesLe, Nat.lt_asymm hbc, hbc] at h2
    · subst hab
      simp only [bytesLe, Nat.lt_irrefl, if_false, ite_false] at h1
      rcases Nat.lt_trichotomy a c with hac | hac | hac
      · simp [bytesLe, hac]
      · subst hac
        simp only [bytesLe, Nat.lt_irrefl, if_false, ite_false] at h2 ⊢
        exact bytesLe_trans as bs cs h1 h2
      · simp [bytesLe, Nat.lt_asymm hac, hac] at h2
    · simp [bytesLe, Nat.lt_asymm hab, hab] at h1

theorem bytesLe_antisymm : ∀ a b : List Nat,
    bytesLe a b = true → bytesLe b a = true → a = b
  | [], [] => fun _ _ => rfl
  | [], _ :: _ => fun _ h2 => by simp [bytesLe] at h2
  | _ :: _, [] => fun h1 _ => by simp [bytesLe] at h1
  | a :: as, b :: bs => by
    intro h1 h2
    rcases Nat.lt_trichotomy a b with h | h | h
    · simp [bytesLe, Nat.lt_asymm h, h] at h2
    · subst h
      simp only [bytesLe, Nat.lt_irrefl, if_false, ite_false] at h1 h2
      rw [bytesLe_antisymm as bs h1 h2]
    · simp [bytesLe, Nat.lt_asymm h, h] at h1

/-- Two permuted lists that are both sorted by a key whose values are
pairwise distinct are equal. -/
theorem eq_of_perm_of_pairwise_keys {α : Type} (key : α → List Nat) :
    ∀ {l₁ l₂ : List α}, l₁.Perm l₂ →
      l₁.Pairwise (fun x y => bytesLe (key x) (key y) = true) →
      l₂.Pairwise (fun x y => bytesLe (key x) (key y) = true) →
      (l₁.map key).Nodup → l₁ = l₂ := by
  intro l₁
  induction l₁ with
  | nil =>
    intro l₂ hp _ _ _
    exact (List.Perm.eq_nil hp.symm).symm
  | cons a t₁ ih =>
    intro l₂ hp hs₁ hs₂ hnd
    cases l₂ with
    | nil => exact absurd (List.Perm.eq_nil hp) (by simp)
    | cons b t₂ =>
      have hab : a = b := by
        by_contra hne
        have hbmem : b ∈ t₁ := by
          have hm : b ∈ a :: t₁ := hp.symm.subset (List.mem_cons_self b t₂)
          rcases List.mem_cons.mp hm with hcase | hcase
          · exact absurd hcase.symm hne
          · exact hcase
        have hamem : a ∈ t₂ := by
          have hm : a ∈ b :: t₂ := hp.subset (List.mem_cons_self a t₁)
          rcases List.mem_cons.mp hm with hcase | hcase
          · exact absurd hcase hne
          · exact hcase
        have h1 : bytesLe (key a) (key b) = true :=
          (List.pairwise_cons.mp hs₁).1 b hbmem
        have h2 : bytesLe (key b) (key a) = true :=
          (List.pairwise_cons.mp hs₂).1 a hamem
        have hk : key a = key b := bytesLe_antisymm _ _ h1 h2
        have hnotin : key a ∉ t₁.map key := by
          have hcons : (key a :: t₁.map key).Nodup := by simpa using hnd
          exact (List.nodup_cons.mp hcons).1
        exact hnotin (hk ▸ List.mem_map_of_mem key hbmem)
      subst hab
      have hp' : t₁.Perm t₂ := hp.cons_inv
      have hnd' : (t₁.map key).Nodup := by
        have hcons : (key a :: t₁.map key).Nodup := by simpa using hnd
        exact (List.nodup_cons.mp hcons).2
      rw [ih hp' (List.pairwise_cons.mp hs₁).2 (List.pairwise_cons.mp hs₂).2 hnd']

/-- A node of the directory tree handed to the builder: the abstract state of
the filesystem collaborator.  The order of `children` models the enumeration
order the filesystem reports. -/
inductive FSEntry where
  | file (name : List Nat) (contents : List Nat)
  | dir (name : List Nat) (children : List FSEntry)

def FSEntry.name : FSEntry → List Nat
  | .file n _ => n
  | .dir n _ => n

/-- The order sort.Strings uses over child names inside filepath.Walk. -/
def childLe (x y : FSEntry) : Prop := bytesLe x.name y.name = true

instance : DecidableRel childLe := fun x y =>
  inferInstanceAs (Decidable (bytesLe x.name y.name = true))

instance : IsTotal FSEntry childLe := ⟨fun x y => bytesLe_total x.name y.name⟩

instance : IsTrans FSEntry childLe :=
  ⟨fun x y z => bytesLe_trans x.name y.name z.name⟩

/-- The order slices.SortFunc uses in createTreeFromDir and lsTree:
strings.Compare on the FileName fields. -/
def entryLe (x y : GoObject) : Prop := bytesLe x.FileName y.FileName = true

instance : DecidableRel entryLe := fun x y =>
  inferInstanceAs (Decidable (bytesLe x.FileName y.FileName = true))

instance : IsTotal GoObject entryLe := ⟨fun x y => bytesLe_total x.FileName y.FileName⟩

instance : IsTrans GoObject entryLe :=
  ⟨fun x y z => bytesLe_trans x.FileName y.FileName z.FileName⟩

/-- filepath.Walk enumerates each directory's children in lexical order
(readDirNames sorts the names with sort.Strings before the callback runs).
A comparison sort is modelled by insertion sort: on the claims' inputs the
keys are pairwise distinct, where every comparison sort agrees. -/
def sortChildren (cs : List FSEntry) : List FSEntry :=
  List.insertionSort childLe cs

theorem sizeOf_sortChildren (cs : List FSEntry) :
    sizeOf (sortChildren cs) = sizeOf cs :=
  (List.perm_insertionSort childLe cs).sizeOf_eq_sizeOf

/-- The path the Walk callback hands to recursion and to file hashing:
filepath.Join(dir, name) followed by filepath.Rel(".", path).  For the
cleaned relative paths this program forms, that is `name` when dir is "."
and dir/name otherwise. -/
def joinPath (dir childName : List Nat) : List Nat :=
  if dir = strBytes "." then childName else dir ++ [47] ++ childName

/-- One write performed through writeToDisk (tree.go lines 43-57) or the
object write in createObjectFromFile: the 20-byte digest naming the object
and the raw bytes handed to the compressing writer.  Path derivation
(hex digest, two-level layout) and compression are external collaborators. -/
structure WriteOp where
  hash : List Nat
  contents : List Nat
  deriving Repr, DecidableEq

/-- createObjectFromFile (commands.go lines 86-103) on a file child with the
given base name and contents, abstracted over the 20-byte digest function
sha1.Sum.  The Go composite literal leaves Kind at its zero value
ObjKindBlob.  The disk write is recorded; file reading is external I/O. -/
def createObjectFromFile (h : List Nat → List Nat) (baseName contents : List Nat) :
    GoObject × WriteOp :=
  let objectBytes := blobObjectBytes contents
  let hash := h objectBytes
  ({ Kind := ObjKind.blob, ShaHash := hash, Mode := strBytes "100644",
     FileName := baseName },
   { hash := hash, contents := objectBytes })

mutual
/-- createTreeFromDir (tree.go lines 151-224) on the directory at path `dir`
whose enumerated children are `children`, abstracted over the digest
function.  Returns the optional tree Object (nil pointer modelled by none)
and the writes performed, in order.  The Go composite literal for the tree
Object leaves Kind at its zero value ObjKindBlob. -/
def createTreeFromDir (h : List Nat → List Nat) (dir : List Nat)
    (children : List FSEntry) : Option GoObject × List WriteOp :=
  let ew := walkChildren h dir (sortChildren children)
  if ew.1.isEmpty then (none, ew.2)
  else
    let sorted := List.insertionSort entryLe ew.1
    let contents := serializeTreeObject sorted
    let hash := h contents
    (some { Kind := ObjKind.blob, ShaHash := hash, FileName := dir,
            Mode := strBytes "40000" },
     ew.2 ++ [{ hash := hash, contents := contents }])
  termination_by (2 * sizeOf children + 1)
  decreasing_by rw [sizeOf_sortChildren]; omega

/-- The processFile callback of createTreeFromDir, folded over the sorted
children of one directory.  A child named ".git" returns filepath.SkipDir:
for a directory that skips just that subtree, but for a regular file Go's
filepath.Walk then skips all remaining children of the containing
directory. -/
def walkChildren (h : List Nat → List Nat) (dir : List Nat) :
    List FSEntry → List GoObject × List WriteOp
  | [] => ([], [])
  | FSEntry.file n c :: rest =>
    if n = strBytes ".git" then ([], [])
    else
      let ow := createObjectFromFile h n c
      let ew := walkChildren h dir rest
      (ow.1 :: ew.1, ow.2 :: ew.2)
  | FSEntry.dir n cs :: rest =>
    if n = strBytes ".git" then walkChildren h dir rest
    else
      let sub := createTreeFromDir h (joinPath dir n) cs
      let ew := walkChildren h dir rest
      let es := match sub.1 with
        | none => ew.1
        | some o => o :: ew.1
      (es, sub.2 ++ ew.2)
  termination_by l => 2 * sizeOf l
  decreasing_by all_goals (simp <;> omega)
end

mutual
/-- A directory subtree that the builder prunes entirely: every child is a
directory and is either the excluded ".git" metadata directory or itself
transitively pruned-empty. -/
def prunedEmptyDir : FSEntry → Bool
  | .file _ _ => false
  | .dir nm cs => nm == strBytes ".git" || prunedEmptyChildren cs

def prunedEmptyChildren : List FSEntry → Bool
  | [] => true
  | c :: rest => prunedEmptyDir c && prunedEmptyChildren rest
end

/-- The parser recomputes Kind from the file name, so a round trip returns
each entry with its Kind replaced by the name-derived kind. -/
def reKind (e : GoObject) : GoObject := { e with Kind := kindFromName e.FileName }

/-- The side conditions under which an entry's serialized form is parseable:
non-empty mode without space or 0x00 bytes, non-empty name without 0x00
bytes, and a 20-byte hash. -/
def entryWellFormed (e : GoObject) : Prop :=
  e.Mode ≠ [] ∧ (32 : Nat) ∉ e.Mode ∧ (0 : Nat) ∉ e.Mode ∧
  e.FileName ≠ [] ∧ (0 : Nat) ∉ e.FileName ∧ e.ShaHash.length = 20

instance (e : GoObject) : Decidable (entryWellFormed e) :=
  inferInstanceAs (Decidable (_ ∧ _ ∧ _ ∧ _ ∧ _ ∧ _))

theorem blobObjectBytes_eq (contents : List Nat) :
    blobObjectBytes contents =
      strBytes "blob " ++ decimalBytes contents.length ++ [0] ++ contents := by
  rw [blobObjectBytes, bytesJoin, bytesJoin]

theorem parseNextTreeEntry_encode {mode name hash : List Nat} (rest : List Nat)
    (hm : mode ≠ []) (hm32 : (32 : Nat) ∉ mode) (hm0 : (0 : Nat) ∉ mode)
    (hn : name ≠ []) (hn0 : (0 : Nat) ∉ name) (hh : hash.length = 20) :
    parseNextTreeEntry (mode ++ 32 :: (name ++ 0 :: (hash ++ rest))) =
      .ok ({ Kind := kindFromName name, ShaHash := hash, FileName := name,
             Mode := mode }, rest) := by
  have h1 : splitOn (mode ++ 32 :: (name ++ 0 :: (hash ++ rest))) 0 =
      (mode ++ 32 :: name, hash ++ rest) := by
    have hp : (0 : Nat) ∉ mode ++ 32 :: name := by
      intro hmem
      rcases List.mem_append.mp hmem with hc | hc
      · exact hm0 hc
      · rcases List.mem_cons.mp hc with hc2 | hc2
        · exact absurd hc2 (by decide)
        · exact hn0 hc2
    have hsplit := splitOn_append (hash ++ rest) hp
    simpa [List.cons_append, List.append_assoc] using hsplit
  have h2 : splitOn (mode ++ 32 :: name) 32 = (mode, name) :=
    splitOn_append name hm32
  have hlen20 : ¬ (hash ++ rest).length < 20 := by
    rw [List.length_append, hh]; omega
  unfold parseNextTreeEntry
  rw [h1]
  dsimp only
  rw [h2]
  dsimp only
  rw [if_neg (by simp [hm, hn]), if_neg hlen20,
    List.take_left' hh, List.drop_left' hh]
  rfl

theorem treeBodyBytes_cons (e : GoObject) (E : List GoObject) :
    treeBodyBytes (e :: E) = serializeTreeEntryBytes e ++ treeBodyBytes E := by
  simp [treeBodyBytes]

theorem parseTreeEntriesLoop_encode :
    ∀ E : List GoObject, (∀ e ∈ E, entryWellFormed e) →
      parseTreeEntriesLoop (treeBodyBytes E) = .ok (E.map reKind)
  | [], _ => by
    rw [parseTreeEntriesLoop]
    simp [treeBodyBytes]
  | e :: E, hwf => by
    obtain ⟨hm, hm32, hm0, hn, hn0, hh⟩ := hwf e (List.mem_cons_self e E)
    have hentry : parseNextTreeEntry (treeBodyBytes (e :: E)) =
        .ok (reKind e, treeBodyBytes E) := by
      have hshape : treeBodyBytes (e :: E) =
          e.Mode ++ 32 :: (e.FileName ++ 0 :: (e.ShaHash ++ treeBodyBytes E)) := by
        rw [treeBodyBytes_cons, serializeTreeEntryBytes]
        simp [List.cons_append, List.append_assoc]
      rw [hshape, parseNextTreeEntry_encode (treeBodyBytes E) hm hm32 hm0 hn hn0 hh]
      rfl
    have hne : ¬ (treeBodyBytes (e :: E)).length = 0 := by
      rw [treeBodyBytes_cons, serializeTreeEntryBytes]
      simp
    rw [parseTreeEntriesLoop]
    rw [dif_neg hne]
    have hrec := parseTreeEntriesLoop_encode E (fun x hx => hwf x (List.mem_cons_of_mem e hx))
    split
    · rename_i e' he'
      rw [hentry] at he'
      exact absurd he' (by simp)
    · rename_i o rest he'
      rw [hentry] at he'
      rw [Except.ok.injEq, Prod.mk.injEq] at he'
      obtain ⟨ho, hrest⟩ := he'
      rw [← hrest, hrec, ← ho]
      simp

theorem treeBodyBytes_ne_nil (e : GoObject) (E : List GoObject) :
    treeBodyBytes (e :: E) ≠ [] := by
  rw [treeBodyBytes_cons, serializeTreeEntryBytes]
  simp

/-- The serialized-tree header bytes contain no 0x00 byte. -/
theorem zero_not_mem_tree_header (n : Nat) :
    (0 : Nat) ∉ strBytes "tree " ++ decimalBytes n := by
  intro hmem
  rcases List.mem_append.mp hmem with hc | hc
  · exact absurd hc (by decide)
  · exact zero_not_mem_decimalBytes hc

/-- parseTreeObject on the exact output of serializeTreeObject, for a
non-empty well-formed entry list. -/
theorem parseTreeObject_serialize (E : List GoObject) (hne : E ≠ [])
    (hwf : ∀ e ∈ E, entryWellFormed e) :
    parseTreeObject (serializeTreeObject E) = .ok (E.map reKind) := by
  obtain ⟨e, E', rfl⟩ : ∃ e E', E = e :: E' := by
    cases E with
    | nil => exact absurd rfl hne
    | cons e E' => exact ⟨e, E', rfl⟩
  have hsplit : splitOn (serializeTreeObject (e :: E')) 0 =
      (strBytes "tree " ++ decimalBytes (treeBodyBytes (e :: E')).length,
       treeBodyBytes (e :: E')) := by
    rw [serializeTreeObject_eq]
    have := splitOn_append (c := 0) (treeBodyBytes (e :: E'))
      (zero_not_mem_tree_header (treeBodyBytes (e :: E')).length)
    simpa [List.append_assoc] using this
  have hhdr : (strBytes "tree " ++
      decimalBytes (treeBodyBytes (e :: E')).length).length ≠ 0 := by simp [strBytes]
  have hbody : (treeBodyBytes (e :: E')).length ≠ 0 := by
    simp [treeBodyBytes_ne_nil e E']
  rw [parseTreeObject]
  rw [hsplit]
  dsimp only
  rw [if_neg (by rw [not_or]; exact ⟨hhdr, hbody⟩)]
  rw [if_neg (by simp [bytesStartsWith_append])]
  exact parseTreeEntriesLoop_encode (e :: E') hwf

theorem prunedEmptyChildren_iff : ∀ l : List FSEntry,
    prunedEmptyChildren l = true ↔ ∀ e ∈ l, prunedEmptyDir e = true
  | [] => by simp [prunedEmptyChildren]
  | c :: rest => by
    rw [prunedEmptyChildren, Bool.and_eq_true, prunedEmptyChildren_iff rest]
    constructor
    · intro hpair x hx
      rcases List.mem_cons.mp hx with hc | hc
      · exact hc ▸ hpair.1
      · exact hpair.2 x hc
    · intro hall
      exact ⟨hall c (List.mem_cons_self c rest),
        fun x hx => hall x (List.mem_cons_of_mem c hx)⟩

/-- Both halves of the pruning argument, by strong induction on the size of
the input: a pruned-empty child list makes the walk collect nothing and
write nothing, and a pruned-empty directory makes the builder return the
nil object with no writes. -/
theorem pruned_build_aux : ∀ n : Nat,
    (∀ (h : List Nat → List Nat) (dir : List Nat) (l : List FSEntry),
      2 * sizeOf l ≤ n → prunedEmptyChildren l = true →
      walkChildren h dir l = ([], [])) ∧
    (∀ (h : List Nat → List Nat) (dir : List Nat) (cs : List FSEntry),
      2 * sizeOf cs + 1 ≤ n → prunedEmptyChildren cs = true →
      createTreeFromDir h dir cs = (none, [])) := by
  intro n
  induction n using Nat.strong_induction_on with
  | _ n ih =>
    constructor
    · intro h dir l hsz hp
      cases l with
      | nil => rw [walkChildren]
      | cons c rest =>
        cases c with
        | file nm contents =>
          rw [prunedEmptyChildren, prunedEmptyDir] at hp
          simp at hp
        | dir nm cs =>
          rw [prunedEmptyChildren, Bool.and_eq_true] at hp
          have hsz1 : 2 * sizeOf rest < n := by
            simp only [List.cons.sizeOf_spec] at hsz
            omega
          have hrest : walkChildren h dir rest = ([], []) :=
            (ih (2 * sizeOf rest) hsz1).1 h dir rest (Nat.le_refl _) hp.2
          rw [walkChildren]
          by_cases hgit : nm = strBytes ".git"
          · rw [if_pos hgit, hrest]
          · rw [if_neg hgit]
            have hcs : prunedEmptyChildren cs = true := by
              rw [prunedEmptyDir] at hp
              have hp1 := hp.1
              rw [Bool.or_eq_true] at hp1
              rcases hp1 with hc | hc
              · exact absurd (by simpa using hc) hgit
              · exact hc
            have hsz2 : 2 * sizeOf cs + 1 < n := by
              simp only [List.cons.sizeOf_spec, FSEntry.dir.sizeOf_spec] at hsz
              omega
            have hsub : createTreeFromDir h (joinPath dir nm) cs = (none, []) :=
              (ih (2 * sizeOf cs + 1) hsz2).2 h (joinPath dir nm) cs
                (Nat.le_refl _) hcs
            rw [hsub, hrest]
            rfl
    · intro h dir cs hsz hp
      have hsorted : prunedEmptyChildren (sortChildren cs) = true := by
        rw [prunedEmptyChildren_iff]
        intro e he
        exact (prunedEmptyChildren_iff cs).mp hp e
          ((List.perm_insertionSort childLe cs).subset he)
      have hw : walkChildren h dir (sortChildren cs) = ([], []) :=
        (ih (2 * sizeOf cs) (by omega)).1 h dir (sortChildren cs)
          (by rw [sizeOf_sortChildren]) hsorted
      rw [createTreeFromDir, hw]
      rfl

/-- Claim C1 (confirmed): for a fixed directory subtree with pairwise
distinct child names, the result of createTreeFromDir — in particular the
root tree object and its hash, together with every write performed — is the
same across repeated invocations (the model is a pure function) and across
every permutation of the filesystem enumeration order of the children, for
every digest function. -/
theorem c1_createTreeFromDir_order_independent (h : List Nat → List Nat)
    (dir : List Nat) (cs₁ cs₂ : List FSEntry) (hperm : cs₁.Perm cs₂)
    (hnames : (cs₁.map FSEntry.name).Nodup) :
    createTreeFromDir h dir cs₁ = createTreeFromDir h dir cs₂ := by
  have hsort : sortChildren cs₁ = sortChildren cs₂ := by
    apply eq_of_perm_of_pairwise_keys FSEntry.name
    · exact ((List.perm_insertionSort childLe cs₁).trans hperm).trans
        (List.perm_insertionSort childLe cs₂).symm
    · exact List.sorted_insertionSort childLe cs₁
    · exact List.sorted_insertionSort childLe cs₂
    · exact (((List.perm_insertionSort childLe cs₁).map FSEntry.name).nodup_iff).mpr
        hnames
  rw [createTreeFromDir, createTreeFromDir, hsort]

theorem c1_witness :
    (([FSEntry.file (strBytes "b") [49], FSEntry.file (strBytes "a") [50]]).map
      FSEntry.name).Nodup ∧
    createTreeFromDir (fun b => b.take 20) (strBytes ".")
        [FSEntry.file (strBytes "b") [49], FSEntry.file (strBytes "a") [50]] =
      createTreeFromDir (fun b => b.take 20) (strBytes ".")
        [FSEntry.file (strBytes "a") [50], FSEntry.file (strBytes "b") [49]] :=
  ⟨by decide, c1_createTreeFromDir_order_independent _ _ _ _
    (List.Perm.swap _ _ _) (by decide)⟩

/-- Claim C2 (code bug): at the truncated tree object
"tree 9\x00100644 a\x00" the entry header parses, but zero bytes remain
where the 20-byte raw hash is expected.  The code slices rest[:20] with no
bounds check — a runtime slice-bounds violation rather than a typed
TruncatedObject failure (no such error value exists anywhere in the code). -/
theorem c2_truncated_hash_panics :
    parseTreeObject (strBytes "tree 9" ++ [0] ++ strBytes "100644 a" ++ [0]) =
      .error .runtimePanic := by
  simp [parseTreeObject, parseTreeEntriesLoop, parseNextTreeEntry, splitOn,
    strBytes, bytesStartsWith, decimalBytes, decimalBytesAux]

/-- Claim C3 counterexample: the claim says the empty tree object
"tree 0\x00" parses successfully to an empty entry sequence; in fact
parseTreeObject rejects it, because its header split leaves an empty body
and the guard requires both halves non-empty. -/
theorem c3_empty_tree_counterexample :
    parseTreeObject (strBytes "tree 0" ++ [0]) ≠ .ok [] := by
  simp [parseTreeObject, splitOn, strBytes]

/-- Claim C3 (corrected): parsing the empty tree object "tree 0\x00" fails
with the invalid-object error carrying header length 6 and body length 0;
zero-entry trees are treated as invalid objects, not decoded to an empty
entry sequence. -/
theorem c3_empty_tree_rejected :
    parseTreeObject (strBytes "tree 0" ++ [0]) =
      .error (.invalidTreeObjectLens 6 0) := by
  simp [parseTreeObject, splitOn, strBytes]

/-- Claim C4 counterexample: the claim says any input that is not exactly 40
hex characters fails with an InvalidHash error; in fact the 3-character
input "abc" is accepted and mapped to ".git/objects/ab/c" — no validation
of length 40 or hex digits exists. -/
theorem c4_no_validation_counterexample :
    filePathFromObjectHash (strBytes "abc") =
      .ok (strBytes ".git/objects/ab/c") := by rfl

/-- Claim C4 (corrected): for every input of more than 2 bytes free of path
separator and dot bytes — in particular every 40-character hex string — the
derived path is the store root, the first 2 bytes as the directory segment,
and the remaining bytes as the file name.  There is no validation: inputs
that are not 40 hex characters are mapped the same way, and an input
shorter than 2 bytes causes an out-of-bounds string slice (a runtime panic)
rather than an InvalidHash error. -/
theorem c4_path_shape (hash : List Nat) (hlen : 2 < hash.length)
    (hsep : (47 : Nat) ∉ hash) (hdot : (46 : Nat) ∉ hash) :
    filePathFromObjectHash hash =
      .ok (ObjectsDir ++ 47 :: (hash.take 2 ++ 47 :: hash.drop 2)) := by
  have hnlt : ¬ hash.length < 2 := by omega
  have ht : (hash.take 2).isEmpty = false := by
    rw [List.isEmpty_eq_false]
    intro hc
    have hlc := congrArg List.length hc
    simp only [List.length_take, List.length_nil] at hlc
    omega
  have hd : (hash.drop 2).isEmpty = false := by
    rw [List.isEmpty_eq_false]
    intro hc
    have hlc := congrArg List.length hc
    simp only [List.length_drop, List.length_nil] at hlc
    omega
  rw [filePathFromObjectHash, if_neg hnlt]
  simp [filepathJoin, List.filter, ht, hd, List.intersperse, ObjectsDir, strBytes]

theorem c4_path_shape_witness :
    2 < (strBytes "0123456789abcdef0123456789abcdef01234567").length ∧
    (47 : Nat) ∉ strBytes "0123456789abcdef0123456789abcdef01234567" ∧
    (46 : Nat) ∉ strBytes "0123456789abcdef0123456789abcdef01234567" ∧
    filePathFromObjectHash (strBytes "0123456789abcdef0123456789abcdef01234567") =
      .ok (ObjectsDir ++ 47 ::
        ((strBytes "0123456789abcdef0123456789abcdef01234567").take 2 ++ 47 ::
          (strBytes "0123456789abcdef0123456789abcdef01234567").drop 2)) :=
  ⟨by decide, by decide, by decide,
    c4_path_shape _ (by decide) (by decide) (by decide)⟩

/-- Claim C5 counterexample: the claim quantifies over every entry list with
distinct clean names, which includes the empty list; parsing the serialized
empty tree does not return the empty entry list — it fails, because the
serialized empty tree "tree 0\x00" has an empty body, which the parser
rejects. -/
theorem c5_roundtrip_counterexample :
    parseTreeObject (serializeTreeObject []) ≠ .ok ([] : List GoObject) := by
  simp [serializeTreeObject, parseTreeObject, splitOn, strBytes, decimalBytes,
    decimalBytesAux]

/-- Claim C5 (corrected): for every blob content C, parsing the blob
encoding of C yields payload bytes equal to C; and for every NON-EMPTY
entry list E whose names are non-empty and contain no 0x00 byte, whose
modes are non-empty and contain no space and no 0x00 byte, and whose hashes
are exactly 20 bytes, parsing the serialized tree yields entries with
exactly the modes, names and hashes of E in the same order (hence equal up
to ordering, and exactly equal for pre-sorted E) — each parsed entry's Kind
field being recomputed from its name.  The empty entry list does not round
trip: the parser rejects the empty body. -/
theorem c5_codec_roundtrip (C : List Nat) (E : List GoObject) (hne : E ≠ [])
    (hwf : ∀ e ∈ E, entryWellFormed e) :
    parseBlobPayload (blobObjectBytes C) = .ok C ∧
    parseTreeObject (serializeTreeObject E) = .ok (E.map reKind) := by
  constructor
  · rw [blobObjectBytes_eq]
    have h0 : (0 : Nat) ∉ strBytes "blob " ++ decimalBytes C.length := by
      intro hmem
      rcases List.mem_append.mp hmem with hc | hc
      · exact absurd hc (by decide)
      · exact zero_not_mem_decimalBytes hc
    have hp := parseBlobPayload_append C h0
    simpa [List.append_assoc] using hp
  · exact parseTreeObject_serialize E hne hwf

/-- A concrete well-formed entry used to instantiate the round-trip. -/
def sampleEntry : GoObject :=
  { Kind := ObjKind.blob, ShaHash := List.replicate 20 7,
    FileName := strBytes "a.txt", Mode := strBytes "100644" }

theorem c5_witness :
    ([sampleEntry] ≠ []) ∧
    (∀ e ∈ [sampleEntry], entryWellFormed e) ∧
    parseBlobPayload (blobObjectBytes [104, 0, 105]) = .ok [104, 0, 105] ∧
    parseTreeObject (serializeTreeObject [sampleEntry]) =
      .ok ([sampleEntry].map reKind) :=
  ⟨by decide, by decide,
    (c5_codec_roundtrip [104, 0, 105] [sampleEntry] (by decide) (by decide)).1,
    (c5_codec_roundtrip [104, 0, 105] [sampleEntry] (by decide) (by decide)).2⟩

/-- Claim C6 (confirmed): the encoder reproduces the binary layouts exactly.
The blob built by createObjectFromFile is "blob ", the decimal byte length
of the content, 0x00, then the content; the tree built by
serializeTreeObject is "tree ", the decimal byte length of the body, 0x00,
then the body, where the body is the concatenation per entry of mode,
0x20, name, 0x00 and the 20 raw hash bytes — so the declared length equals
the byte length of the serialized entries by construction. -/
theorem c6_encoding_layout :
    (∀ C : List Nat, blobObjectBytes C = specBlobEncoding C) ∧
    (∀ E : List GoObject, serializeTreeObject E = specTreeEncoding E) := by
  constructor
  · intro C
    rw [blobObjectBytes_eq]
    rfl
  · intro E
    rw [serializeTreeObject_eq]
    rfl

theorem c6_witness :
    blobObjectBytes (strBytes "hello") = specBlobEncoding (strBytes "hello") ∧
    serializeTreeObject [] = specTreeEncoding [] :=
  ⟨c6_encoding_layout.1 (strBytes "hello"), c6_encoding_layout.2 []⟩

/-- Claim C7 counterexample: the claim says the blob path used by cat-file
validates the "blob " header prefix and fails with InvalidObject otherwise;
in fact cat-file's payload split accepts the header "xyz" and returns the
bytes after the first 0x00. -/
theorem c7_blob_no_prefix_check_counterexample :
    parseBlobPayload (strBytes "xyz" ++ [0] ++ strBytes "hi") =
      .ok (strBytes "hi") := by rfl

/-- Claim C7 (corrected): tree parsing splits on the first 0x00 and fails
when no 0x00 exists or either half is empty, and requires the "tree "
header prefix, failing otherwise; but the blob path used by cat-file only
checks that a 0x00 byte is present — it returns everything after the first
0x00 with no emptiness check and no "blob " prefix validation. -/
theorem c7_parse_validation :
    (∀ b : List Nat, (0 : Nat) ∉ b →
      parseTreeObject b = .error (.invalidTreeObjectLens b.length 0)) ∧
    (∀ s : List Nat, parseTreeObject (0 :: s) =
      .error (.invalidTreeObjectLens 0 s.length)) ∧
    (∀ p : List Nat, (0 : Nat) ∉ p →
      parseTreeObject (p ++ [0]) = .error (.invalidTreeObjectLens p.length 0)) ∧
    (∀ p s : List Nat, (0 : Nat) ∉ p → p ≠ [] → s ≠ [] →
      bytesStartsWith p (strBytes "tree ") = false →
      parseTreeObject (p ++ 0 :: s) = .error .invalidTreeObject) ∧
    (∀ b : List Nat,
      parseBlobPayload b = .error .invalidObject ↔ indexByte b 0 = none) ∧
    (∀ p s : List Nat, (0 : Nat) ∉ p → parseBlobPayload (p ++ 0 :: s) = .ok s) := by
  refine ⟨?_, ?_, ?_, ?_, ?_, ?_⟩
  · intro b hb
    rw [parseTreeObject, splitOn_not_mem hb]
    simp
  · intro s
    have hs : splitOn (0 :: s) 0 = ([], s) := by simp [splitOn]
    rw [parseTreeObject, hs]
    simp
  · intro p hp
    rw [parseTreeObject, splitOn_append [] hp]
    simp
  · intro p s hp hpne hsne hpre
    rw [parseTreeObject, splitOn_append s hp]
    dsimp only
    rw [if_neg (by rw [not_or]; exact ⟨by simp [hpne], by simp [hsne]⟩)]
    rw [if_pos (by rw [hpre]; simp)]
  · intro b
    cases hidx : indexByte b 0 <;> simp [parseBlobPayload, hidx]
  · intro p s hp
    exact parseBlobPayload_append s hp

theorem c7_witness :
    parseTreeObject (strBytes "abc") = .error (.invalidTreeObjectLens 3 0) ∧
    parseTreeObject (0 :: strBytes "xy") = .error (.invalidTreeObjectLens 0 2) ∧
    parseTreeObject (strBytes "abc" ++ [0]) = .error (.invalidTreeObjectLens 3 0) ∧
    parseTreeObject (strBytes "blob 2" ++ 0 :: strBytes "hi") =
      .error .invalidTreeObject ∧
    (parseBlobPayload (strBytes "xy") = .error .invalidObject ↔
      indexByte (strBytes "xy") 0 = none) ∧
    parseBlobPayload (strBytes "xyz" ++ 0 :: strBytes "hi") = .ok (strBytes "hi") :=
  ⟨c7_parse_validation.1 _ (by decide),
    by simpa using c7_parse_validation.2.1 (strBytes "xy"),
    c7_parse_validation.2.2.1 _ (by decide),
    c7_parse_validation.2.2.2.1 _ _ (by decide) (by decide) (by decide) (by decide),
    c7_parse_validation.2.2.2.2.1 _,
    c7_parse_validation.2.2.2.2.2 _ _ (by decide)⟩

/-- Claim C8 (confirmed): a directory whose children, after excluding the
".git" metadata directory, are only transitively-empty directories makes
createTreeFromDir return the nil object: empty subdirectories are omitted
rather than encoded, and with zero collected entries nothing is written to
disk (the write log is empty). -/
theorem c8_empty_dirs_pruned (h : List Nat → List Nat) (dir : List Nat)
    (cs : List FSEntry) (hp : prunedEmptyChildren cs = true) :
    createTreeFromDir h dir cs = (none, []) :=
  (pruned_build_aux (2 * sizeOf cs + 1)).2 h dir cs (Nat.le_refl _) hp

theorem c8_witness :
    prunedEmptyChildren
      [FSEntry.dir (strBytes "a") [FSEntry.dir (strBytes "b") []],
       FSEntry.dir (strBytes ".git") [FSEntry.file (strBytes "config") [120]]] = true ∧
    createTreeFromDir (fun b => b.take 20) (strBytes ".")
      [FSEntry.dir (strBytes "a") [FSEntry.dir (strBytes "b") []],
       FSEntry.dir (strBytes ".git") [FSEntry.file (strBytes "config") [120]]] =
      (none, []) :=
  ⟨by decide, c8_empty_dirs_pruned _ _ _ (by decide)⟩

/-- Claim C9 (confirmed): parseNextTreeEntry assigns the parsed entry's Kind
from the file name alone — tree when the name starts with "tree", commit
when it starts with "commit", blob otherwise — and the mode string plays no
role in the assignment: the parsed entry's Kind is kindFromName of the
name, whatever the mode. -/
theorem c9_kind_from_name (mode name hash rest : List Nat)
    (hm : mode ≠ []) (hm32 : (32 : Nat) ∉ mode) (hm0 : (0 : Nat) ∉ mode)
    (hn : name ≠ []) (hn0 : (0 : Nat) ∉ name) (hh : hash.length = 20) :
    parseNextTreeEntry (mode ++ 32 :: (name ++ 0 :: (hash ++ rest))) =
      .ok ({ Kind := kindFromName name, ShaHash := hash, FileName := name,
             Mode := mode }, rest) ∧
    kindFromName name =
      (if bytesStartsWith name (strBytes "tree") = true then ObjKind.tree
       else if bytesStartsWith name (strBytes "commit") = true then ObjKind.commit
       else ObjKind.blob) :=
  ⟨parseNextTreeEntry_encode rest hm hm32 hm0 hn hn0 hh, rfl⟩

theorem c9_witness :
    parseNextTreeEntry (strBytes "100644" ++ 32 :: (strBytes "tree.txt" ++ 0 ::
        (List.replicate 20 7 ++ []))) =
      .ok ({ Kind := kindFromName (strBytes "tree.txt"),
             ShaHash := List.replicate 20 7, FileName := strBytes "tree.txt",
             Mode := strBytes "100644" }, []) ∧
    kindFromName (strBytes "tree.txt") = ObjKind.tree ∧
    kindFromName (strBytes "docs") = ObjKind.blob :=
  ⟨(c9_kind_from_name (strBytes "100644") (strBytes "tree.txt")
      (List.replicate 20 7) [] (by decide) (by decide) (by decide) (by decide)
      (by decide) (by decide)).1,
    by decide, by decide⟩

/-- Claim C10 (confirmed): filePathFromObjectHash is partial — a hash
shorter than 2 bytes makes its string slice go out of bounds (a runtime
panic); catFile guards against this by rejecting such hashes with "Hash too
short" before deriving the path, while lsTree hands its hash argument to
the path derivation with no length check, so the panic surfaces. -/
theorem c10_short_hash_partiality (hash : List Nat) (hshort : hash.length < 2) :
    filePathFromObjectHash hash = .error .runtimePanic ∧
    catFile [strBytes "-p", hash] = .error .hashTooShort ∧
    lsTree [hash] = .error .runtimePanic := by
  have hneq : ¬ [hash].headI = strBytes "--name-only" := by
    simp only [List.headI]
    intro hc
    rw [hc] at hshort
    exact absurd hshort (by decide)
  refine ⟨?_, ?_, ?_⟩
  · rw [filePathFromObjectHash, if_pos hshort]
  · simp [catFile, hshort]
  · simp only [lsTree, List.length_cons, List.length_nil]
    rw [if_neg (by omega), if_neg hneq]
    simp [filePathFromObjectHash, hshort]

theorem c10_witness :
    [(97 : Nat)].length < 2 ∧
    filePathFromObjectHash [97] = .error .runtimePanic ∧
    catFile [strBytes "-p", [97]] = .error .hashTooShort ∧
    lsTree [[97]] = .error .runtimePanic :=
  ⟨by decide, (c10_short_hash_partiality [97] (by decide)).1,
    (c10_short_hash_partiality [97] (by decide)).2.1,
    (c10_short_hash_partiality [97] (by decide)).2.2⟩

end MyGit
